import Mathlib

/-!
# Runtime terrain generator: heightmap codec, mesh builder and level store

A shallow embedding of `ALevelManager` (LevelManager.cpp / LevelManager.h).

* `int32` quantities (`W`, `H`, loop counters, triangle indices) are `Int`.
  Array lengths are `int32` in the source, so inside a grid whose sample count
  is `W * H` no index computation leaves the `int32` range.
* `uint8` / `uint16` values are `Nat`, reduced explicitly where the source
  narrows them.
* `float` scale arithmetic is taken as exact and carried out in `ℚ`.
* `TArray::operator[]` range-checks its index; an out-of-range access is a
  fault, modelled as `none`.
-/

namespace RuntimeTerrain

/-! ## Loops and array access -/

/-- Iterations `i, i+1, ..., i+k-1` of a loop body over a state; a faulting
iteration aborts the loop. -/
def loopFrom {σ : Type} (body : Int → σ → Option σ) : Nat → Int → σ → Option σ
  | 0, _, s => some s
  | k + 1, i, s => (body i s).bind (loopFrom body k (i + 1))

/-- The loop `for (int32 i = 0; i < N; i++) body`: it runs `N` times when
`N` is positive and not at all otherwise. -/
def forLoop {σ : Type} (N : Int) (body : Int → σ → Option σ) (s : σ) : Option σ :=
  loopFrom body N.toNat 0 s

/-- Checked read `A[i]` of a `TArray` with an `int32` index. -/
def arrayRead {α : Type} (A : List α) (i : Int) : Option α :=
  if 0 ≤ i then A[i.toNat]? else none

/-- Checked write `A[i] = v` of a `TArray` with an `int32` index. -/
def arrayWrite {α : Type} (A : List α) (i : Int) (v : α) : Option (List α) :=
  if 0 ≤ i ∧ i.toNat < A.length then some (A.set i.toNat v) else none

/-! ## Mesh builder -/

/-- An `FVector`. -/
abbrev FVector := ℚ × ℚ × ℚ

/-- An `FVector2D`. -/
abbrev FVector2D := ℚ × ℚ

/-- The arrays handed to `CreateMeshSection_LinearColor`. -/
structure MeshData where
  Verts : List FVector
  Tris : List Int
  Normals : List FVector
  UVs : List FVector2D
  deriving DecidableEq

/-- The constant `FVector::UpVector`. -/
def UpVector : FVector := (0, 0, 1)

/-- Body of the inner vertex loop of `BuildTerrain` at row `y`, column `x`. -/
def vertexBody (HorizontalScale VerticalScale : ℚ) (Heights : List Nat) (W H : Int)
    (y x : Int) (s : List FVector × List FVector2D) : Option (List FVector × List FVector2D) :=
  match arrayRead Heights (y * W + x) with
  | none => none
  | some v =>
    let h : ℚ := (v : ℚ) * VerticalScale
    some (s.1 ++ [((x : ℚ) * HorizontalScale, (y : ℚ) * HorizontalScale, h)],
          s.2 ++ [((x : ℚ) / (W : ℚ), (y : ℚ) / (H : ℚ))])

/-- Body of the inner triangle loop of `BuildTerrain` at cell `(x, y)`. -/
def triangleBody (W : Int) (y x : Int) (Tris : List Int) : Option (List Int) :=
  let i0 := y * W + x
  let i1 := i0 + 1
  let i2 := i0 + W
  let i3 := i2 + 1
  some (Tris ++ [i0, i2, i1, i1, i2, i3])

/-- The method `ALevelManager::BuildTerrain`: the mesh section it creates, or
`none` when a read of `Heights` is out of range. -/
def BuildTerrain (HorizontalScale VerticalScale : ℚ) (Heights : List Nat) (W H : Int) :
    Option MeshData :=
  match forLoop H (fun y s =>
      forLoop W (vertexBody HorizontalScale VerticalScale Heights W H y) s) ([], []) with
  | none => none
  | some (Verts, UVs) =>
    match forLoop (H - 1) (fun y t => forLoop (W - 1) (triangleBody W y) t) [] with
    | none => none
    | some Tris =>
      some { Verts := Verts, Tris := Tris,
             Normals := List.replicate Verts.length UpVector, UVs := UVs }

/-! ## Host platform: files, directories and the PNG image wrapper -/

/-- A path, as the list of its components; `FPaths::Combine` is `++`. -/
abbrev Path := List String

/-- What the engine's PNG image wrapper reports for a compressed stream that
`SetCompressed` accepts: `GetWidth()`, `GetHeight()`, and the byte buffer
filled by `GetRaw(ERGBFormat::Gray, 16, Raw)` (`none` when `GetRaw` returns
false). Compression is lossless: the stream is identified with what it
decompresses to. The engine's own wrapper fills a buffer of exactly
`Width * Height * 2` bytes whenever `GetRaw` succeeds; the interface
`IImageWrapper` hands the buffer over as a plain `TArray<uint8>`, so the record
does not build that length in. -/
structure PngImage where
  Width : Int
  Height : Int
  Raw : Option (List Nat)
  deriving DecidableEq

/-- The `metadata.json` record written by `SaveRuntimeLevel`. -/
structure Metadata where
  LevelName : String
  Width : Int
  Height : Int
  HorizontalScale : ℚ
  VerticalScale : ℚ
  deriving DecidableEq

/-- Content of a file. -/
inductive FileData where
  | png (img : PngImage)
  | json (meta : Metadata)
  | other (bytes : List Nat)
  deriving DecidableEq

/-- The file system: the directories that exist and the files with their
content. -/
structure FileSystem where
  dirs : List Path
  files : List (Path × FileData)
  deriving DecidableEq

/-- Whether each host operation that can fail for external reasons succeeds
during one call. -/
structure Platform where
  createDirectoryOk : Bool
  wrapperValid : Bool
  setRawOk : Bool
  saveArrayOk : Bool
  serializeOk : Bool
  saveStringOk : Bool
  deriving DecidableEq

/-- The call `IPlatformFile::DirectoryExists`. -/
def DirectoryExists (fs : FileSystem) (p : Path) : Bool := fs.dirs.contains p

/-- The call `FPaths::FileExists`. -/
def FileExists (fs : FileSystem) (p : Path) : Bool := (fs.files.lookup p).isSome

/-- The call `FFileHelper::LoadFileToArray`: the file's content, `none` when
the call returns false. -/
def LoadFileToArray (fs : FileSystem) (p : Path) : Option FileData := fs.files.lookup p

/-- Replace or create the file at `p`. -/
def writeFile (fs : FileSystem) (p : Path) (d : FileData) : FileSystem :=
  { fs with files := (p, d) :: fs.files.filter (fun e => !(e.1 == p)) }

/-- The call `IPlatformFile::CreateDirectoryTree`: on success the directory and
its missing ancestors exist; `none` when the call returns false. -/
def CreateDirectoryTree (pf : Platform) (fs : FileSystem) (p : Path) : Option FileSystem :=
  if pf.createDirectoryOk then
    some { fs with dirs := fs.dirs ++ p.inits.filter (fun q => !(q == []) && !(fs.dirs.contains q)) }
  else none

/-- The call `FPaths::GetCleanFilename`: the last component of a path. -/
def GetCleanFilename (p : Path) : String := p.getLast?.getD ""

/-- The directory `FPaths::ProjectSavedDir()`. -/
def ProjectSavedDir : Path := ["Saved"]

/-- The levels root `Saved/MyRTLevels`. -/
def LevelsRoot : Path := ProjectSavedDir ++ ["MyRTLevels"]

/-- The visits of `IPlatformFile::IterateDirectory` to the directories among
the immediate children of `Root`, in the order the platform reports them. -/
def childDirectories (fs : FileSystem) (Root : Path) : List Path :=
  fs.dirs.filter (fun p => !(p == []) && p.dropLast == Root)

/-- The call `TArray::SetNum` / `SetNumUninitialized` with an `int32` count:
existing elements are kept, new ones are zero; a negative count is a fault. -/
def setNum (A : List Nat) (n : Int) : Option (List Nat) :=
  if 0 ≤ n then some (A.take n.toNat ++ List.replicate (n.toNat - A.length) 0) else none

/-! ## Heightmap codec -/

/-- Body of the packing loop of `SaveRawToPNG16` at index `i`. -/
def packBody (Heights : List Nat) (i : Int) (RawBytes : List Nat) : Option (List Nat) :=
  match arrayRead Heights i with
  | none => none
  | some h =>
    let v := h % 65536
    match arrayWrite RawBytes (2 * i) ((v &&& 0xFF) % 256) with
    | none => none
    | some R => arrayWrite R (2 * i + 1) (((v >>> 8) &&& 0xFF) % 256)

/-- Body of the unpacking loop of `LoadPNG16ToRaw` at index `i`. -/
def unpackBody (Raw : List Nat) (i : Int) (OutHeights : List Nat) : Option (List Nat) :=
  match arrayRead Raw (2 * i) with
  | none => none
  | some b0 =>
    match arrayRead Raw (2 * i + 1) with
    | none => none
    | some b1 =>
      let lo := b0 % 256
      let hi := b1 % 256
      arrayWrite OutHeights i (((hi <<< 8) ||| lo) % 65536)

/-- The method `ALevelManager::SaveRawToPNG16`: its return value and the file
system afterwards, or `none` on an out-of-range array access. -/
def SaveRawToPNG16 (pf : Platform) (fs : FileSystem) (FullPath : Path) (Heights : List Nat)
    (W H : Int) : Option (Bool × FileSystem) :=
  if (Heights.length : Int) ≠ W * H then some (false, fs)
  else if !pf.wrapperValid then some (false, fs)
  else
    match setNum [] (W * H * 2) with
    | none => none
    | some RawBytes0 =>
      match forLoop (W * H) (packBody Heights) RawBytes0 with
      | none => none
      | some RawBytes =>
        if !pf.setRawOk then some (false, fs)
        else
          let Compressed := FileData.png { Width := W, Height := H, Raw := some RawBytes }
          if !pf.saveArrayOk then some (false, fs)
          else some (true, writeFile fs FullPath Compressed)

/-- The method `ALevelManager::LoadPNG16ToRaw`: its return value and the
reference parameters `OutHeights`, `W`, `H` afterwards, or `none` on an
out-of-range array access. The image wrapper module is taken to provide a PNG
wrapper, which the source does not test here. -/
def LoadPNG16ToRaw (fs : FileSystem) (FullPath : Path) (OutHeights : List Nat) (W H : Int) :
    Option (Bool × List Nat × Int × Int) :=
  match LoadFileToArray fs FullPath with
  | none => some (false, OutHeights, W, H)
  | some (FileData.png img) =>
    let W := img.Width
    let H := img.Height
    match img.Raw with
    | none => some (false, OutHeights, W, H)
    | some Raw =>
      match setNum OutHeights (W * H) with
      | none => none
      | some Out0 =>
        match forLoop (W * H) (unpackBody Raw) Out0 with
        | none => none
        | some Out => some (true, Out, W, H)
  | some _ => some (false, OutHeights, W, H)

/-! ## Level store -/

/-- The members of `ALevelManager` the operations read and write;
`MeshSection` is section 0 of `MeshComp`. -/
structure ALevelManager where
  HorizontalScale : ℚ
  VerticalScale : ℚ
  RawHeights : List Nat
  ImgWidth : Int
  ImgHeight : Int
  MeshSection : Option MeshData
  deriving DecidableEq

/-- The `TCHAR` code units of a character as `FCString::Stricmp` compares
them: an ASCII capital letter is lower-cased, any other character of the basic
plane keeps its code, a character beyond it is its UTF-16 surrogate pair. -/
def lowerCode (c : Char) : List Nat :=
  if 65 ≤ c.toNat ∧ c.toNat ≤ 90 then [c.toNat + 32]
  else if c.toNat < 65536 then [c.toNat]
  else [55296 + (c.toNat - 65536) / 1024, 56320 + (c.toNat - 65536) % 1024]

/-- Lexicographic comparison of two code sequences. -/
def lexLe : List Nat → List Nat → Bool
  | [], _ => true
  | _ :: _, [] => false
  | a :: as, b :: bs => decide (a < b) || (a == b && lexLe as bs)

/-- The order `TArray<FString>::Sort()` sorts by: `A < B` on `FString` is
`Stricmp(A, B) < 0`, the lexicographic comparison of the lower-cased
characters, so `FStringLe A B` is `!(B < A)`. -/
def FStringLe (A B : String) : Prop :=
  lexLe (A.toList.flatMap lowerCode) (B.toList.flatMap lowerCode) = true

instance : DecidableRel FStringLe := fun A B =>
  inferInstanceAs (Decidable (lexLe (A.toList.flatMap lowerCode) (B.toList.flatMap lowerCode) = true))

/-- The lexicographic order of two strings by character code. -/
def codeLe (A B : String) : Prop :=
  lexLe (A.toList.map Char.toNat) (B.toList.map Char.toNat) = true

instance : DecidableRel codeLe := fun A B =>
  inferInstanceAs (Decidable (lexLe (A.toList.map Char.toNat) (B.toList.map Char.toNat) = true))

/-- A string without ASCII capital letters and without characters beyond the
basic plane. -/
def caseFree (A : String) : Prop :=
  ∀ c ∈ A.toList, ¬ (65 ≤ c.toNat ∧ c.toNat ≤ 90) ∧ c.toNat < 65536

instance : DecidablePred caseFree := fun A =>
  inferInstanceAs (Decidable (∀ c ∈ A.toList, ¬ (65 ≤ c.toNat ∧ c.toNat ≤ 90) ∧ c.toNat < 65536))

/-- The method `ALevelManager::GetSavedLevelNames`. `Result.Sort()` is modelled
by an insertion sort; the order of names that compare equal is not relied
on. -/
def GetSavedLevelNames (fs : FileSystem) : List String :=
  let Root := LevelsRoot
  if !DirectoryExists fs Root then []
  else
    let Result := ((childDirectories fs Root).filter
      (fun Folder => FileExists fs (Folder ++ ["height_16bit.png"]))).map GetCleanFilename
    Result.insertionSort FStringLe

/-- The method `ALevelManager::SaveRuntimeLevel`: its return value and the file
system afterwards, or `none` on an out-of-range array access. -/
def SaveRuntimeLevel (pf : Platform) (fs : FileSystem) (a : ALevelManager) (LevelName : String) :
    Option (Bool × FileSystem) :=
  if LevelName = "" then some (false, fs)
  else if a.RawHeights.length = 0 ∨ a.ImgWidth ≤ 0 ∨ a.ImgHeight ≤ 0 then some (false, fs)
  else
    let Root := LevelsRoot
    let Folder := Root ++ [LevelName]
    match (if DirectoryExists fs Folder then some fs else CreateDirectoryTree pf fs Folder) with
    | none => some (false, fs)
    | some fs1 =>
      let ImgPath := Folder ++ ["height_16bit.png"]
      match SaveRawToPNG16 pf fs1 ImgPath a.RawHeights a.ImgWidth a.ImgHeight with
      | none => none
      | some (false, fs2) => some (false, fs2)
      | some (true, fs2) =>
        if !pf.serializeOk then some (false, fs2)
        else
          let OutputString := FileData.json
            { LevelName := LevelName, Width := a.ImgWidth, Height := a.ImgHeight,
              HorizontalScale := a.HorizontalScale, VerticalScale := a.VerticalScale }
          let MetaPath := Folder ++ ["metadata.json"]
          if !pf.saveStringOk then some (false, fs2)
          else some (true, writeFile fs2 MetaPath OutputString)

/-- The method `ALevelManager::LoadRuntimeLevel`: its return value and the
actor afterwards, or `none` on an out-of-range array access. -/
def LoadRuntimeLevel (fs : FileSystem) (a : ALevelManager) (LevelName : String) :
    Option (Bool × ALevelManager) :=
  if LevelName = "" then some (false, a)
  else
    let Folder := ProjectSavedDir ++ ["MyRTLevels", LevelName]
    let ImgPath := Folder ++ ["height_16bit.png"]
    if !FileExists fs ImgPath then some (false, a)
    else
      match LoadPNG16ToRaw fs ImgPath [] 0 0 with
      | none => none
      | some (false, _) => some (false, a)
      | some (true, Loaded, W, H) =>
        let a1 := { a with RawHeights := Loaded, ImgWidth := W, ImgHeight := H }
        let a2 := { a1 with MeshSection := none }
        match BuildTerrain a2.HorizontalScale a2.VerticalScale a2.RawHeights
            a2.ImgWidth a2.ImgHeight with
        | none => none
        | some m => some (true, { a2 with MeshSection := some m })

/-- The path of a level's `metadata.json`. -/
def MetaPath (LevelName : String) : Path :=
  ProjectSavedDir ++ ["MyRTLevels", LevelName] ++ ["metadata.json"]

/-- The path of a level's `height_16bit.png`. -/
def ImgPath (LevelName : String) : Path :=
  ProjectSavedDir ++ ["MyRTLevels", LevelName] ++ ["height_16bit.png"]

/-! ## Sample data -/

/-- A platform on which every host operation succeeds. -/
def allOk : Platform := ⟨true, true, true, true, true, true⟩

/-- An actor holding a 1 x 1 grid with the sample 7. -/
def onePixel : ALevelManager := ⟨100, 1, [7], 1, 1, none⟩

/-- A levels root with the saved levels `"B"` and `"a"` and a folder `"empty"`
that holds no image. -/
def mixedCaseLevels : FileSystem :=
  ⟨[["Saved"], ["Saved", "MyRTLevels"], ["Saved", "MyRTLevels", "B"],
    ["Saved", "MyRTLevels", "a"], ["Saved", "MyRTLevels", "empty"]],
   [(["Saved", "MyRTLevels", "B", "height_16bit.png"], FileData.png ⟨1, 1, some [7, 0]⟩),
    (["Saved", "MyRTLevels", "a", "height_16bit.png"], FileData.png ⟨1, 1, some [7, 0]⟩),
    (["Saved", "MyRTLevels", "empty", "metadata.json"], FileData.other [])]⟩

/-- The file system after saving `onePixel` as `"b"` into an empty root. -/
def savedB : FileSystem :=
  ⟨[["Saved"], ["Saved", "MyRTLevels"], ["Saved", "MyRTLevels", "b"]],
   [(["Saved", "MyRTLevels", "b", "metadata.json"], FileData.json ⟨"b", 1, 1, 100, 1⟩),
    (["Saved", "MyRTLevels", "b", "height_16bit.png"], FileData.png ⟨1, 1, some [7, 0]⟩)]⟩

/-- The file system after then saving `onePixel` as `"a"`. -/
def savedBA : FileSystem :=
  ⟨[["Saved"], ["Saved", "MyRTLevels"], ["Saved", "MyRTLevels", "b"],
    ["Saved", "MyRTLevels", "a"]],
   [(["Saved", "MyRTLevels", "a", "metadata.json"], FileData.json ⟨"a", 1, 1, 100, 1⟩),
    (["Saved", "MyRTLevels", "a", "height_16bit.png"], FileData.png ⟨1, 1, some [7, 0]⟩),
    (["Saved", "MyRTLevels", "b", "metadata.json"], FileData.json ⟨"b", 1, 1, 100, 1⟩),
    (["Saved", "MyRTLevels", "b", "height_16bit.png"], FileData.png ⟨1, 1, some [7, 0]⟩)]⟩

/-- The file system after then saving `onePixel` as `"c"`. -/
def savedBAC : FileSystem :=
  ⟨[["Saved"], ["Saved", "MyRTLevels"], ["Saved", "MyRTLevels", "b"],
    ["Saved", "MyRTLevels", "a"], ["Saved", "MyRTLevels", "c"]],
   [(["Saved", "MyRTLevels", "c", "metadata.json"], FileData.json ⟨"c", 1, 1, 100, 1⟩),
    (["Saved", "MyRTLevels", "c", "height_16bit.png"], FileData.png ⟨1, 1, some [7, 0]⟩),
    (["Saved", "MyRTLevels", "a", "metadata.json"], FileData.json ⟨"a", 1, 1, 100, 1⟩),
    (["Saved", "MyRTLevels", "a", "height_16bit.png"], FileData.png ⟨1, 1, some [7, 0]⟩),
    (["Saved", "MyRTLevels", "b", "metadata.json"], FileData.json ⟨"b", 1, 1, 100, 1⟩),
    (["Saved", "MyRTLevels", "b", "height_16bit.png"], FileData.png ⟨1, 1, some [7, 0]⟩)]⟩

/-! ## Specification-level descriptions of the loops -/

/-- The state after `k` iterations of a loop whose iteration `j` applies
`step j`. -/
def iter {σ : Type} (step : Nat → σ → σ) : Nat → σ → σ
  | 0, s => s
  | k + 1, s => step k (iter step k s)

/-- The concatenation `g 0 ++ g 1 ++ ... ++ g (k-1)`. -/
def rows {α : Type} (g : Nat → List α) : Nat → List α
  | 0 => []
  | k + 1 => rows g k ++ g k

/-- The vertex emitted for column `x` of row `y`. -/
def vertexAt (HorizontalScale VerticalScale : ℚ) (Heights : List Nat) (W : Int) (y x : Nat) :
    FVector :=
  ((x : ℚ) * HorizontalScale, (y : ℚ) * HorizontalScale,
    ((Heights.getD (y * W.toNat + x) 0 : Nat) : ℚ) * VerticalScale)

/-- The texture coordinate emitted for column `x` of row `y`. -/
def uvAt (W H : Int) (y x : Nat) : FVector2D := ((x : ℚ) / (W : ℚ), (y : ℚ) / (H : ℚ))

/-- The six indices emitted for the cell at column `x` of row `y`. -/
def cellTris (W : Int) (y x : Nat) : List Int :=
  [(y : Int) * W + x, (y : Int) * W + x + W, (y : Int) * W + x + 1,
   (y : Int) * W + x + 1, (y : Int) * W + x + W, (y : Int) * W + x + W + 1]

/-- Every read of the vertex loops is in range. -/
def ReadsInRange (Heights : List Nat) (W H : Int) : Prop :=
  ∀ y x : Nat, y < H.toNat → x < W.toNat → y * W.toNat + x < Heights.length

/-- The mesh of a grid all of whose reads are in range. -/
def meshOf (hs vs : ℚ) (Heights : List Nat) (W H : Int) : MeshData :=
  { Verts := rows (fun y => rows (fun x => [vertexAt hs vs Heights W y x]) W.toNat) H.toNat
    Tris := rows (fun y => rows (cellTris W y) (W - 1).toNat) (H - 1).toNat
    Normals := List.replicate
      (rows (fun y => rows (fun x => [vertexAt hs vs Heights W y x]) W.toNat) H.toNat).length
      UpVector
    UVs := rows (fun y => rows (fun x => [uvAt W H y x]) W.toNat) H.toNat }

/-- The byte `SaveRawToPNG16` stores at `RawBytes[2 * i]` for the sample `h`. -/
def loByte (h : Nat) : Nat := ((h % 65536) &&& 0xFF) % 256

/-- The byte `SaveRawToPNG16` stores at `RawBytes[2 * i + 1]` for the sample `h`. -/
def hiByte (h : Nat) : Nat := (((h % 65536) >>> 8) &&& 0xFF) % 256

/-- The sample `LoadPNG16ToRaw` assembles from the bytes `b0`, `b1`. -/
def joinBytes (b0 b1 : Nat) : Nat := (((b1 % 256) <<< 8) ||| (b0 % 256)) % 65536

/-- The names `GetSavedLevelNames` collects before sorting. -/
def collectedNames (fs : FileSystem) : List String :=
  ((childDirectories fs LevelsRoot).filter
    (fun Folder => FileExists fs (Folder ++ ["height_16bit.png"]))).map GetCleanFilename

/-- The directories after a successful `SaveRuntimeLevel`. -/
def saveDirs (dirs : List Path) (LevelName : String) : List Path :=
  if dirs.contains (LevelsRoot ++ [LevelName]) then dirs
  else dirs ++ (LevelsRoot ++ [LevelName]).inits.filter
    (fun q => !(q == []) && !(dirs.contains q))

/-- The paths of the files after a successful `SaveRuntimeLevel`. -/
def saveKeys (keys : List Path) (LevelName : String) : List Path :=
  (LevelsRoot ++ [LevelName] ++ ["metadata.json"]) ::
    ((LevelsRoot ++ [LevelName] ++ ["height_16bit.png"]) ::
      keys.filter (fun q => !(q == LevelsRoot ++ [LevelName] ++ ["height_16bit.png"]))).filter
      (fun q => !(q == LevelsRoot ++ [LevelName] ++ ["metadata.json"]))

/-- The listing of a file system with the given directories and file paths. -/
def listNames (dirs keys : List Path) : List String :=
  GetSavedLevelNames ⟨dirs, keys.map (fun k => (k, FileData.other []))⟩

theorem loopFrom_succ_last {σ : Type} (body : Int → σ → Option σ) (k : Nat) (i : Int) (s : σ) :
    loopFrom body (k + 1) i s = (loopFrom body k i s).bind (body (i + k)) := by
  induction k generalizing i s with
  | zero => simp [loopFrom]
  | succ k ih =>
    rw [loopFrom]
    cases hb : body i s with
    | none => simp [loopFrom, hb]
    | some s1 =>
      simp only [Option.some_bind]
      rw [ih (i + 1) s1]
      conv_rhs => rw [loopFrom, hb, Option.some_bind]
      have : i + 1 + (k : Int) = i + ((k + 1 : Nat) : Int) := by push_cast; ring
      rw [this]

theorem forLoop_eq_iter {σ : Type} (body : Int → σ → Option σ) (step : Nat → σ → σ)
    (Inv : σ → Prop) (k : Nat)
    (hb : ∀ j : Nat, j < k → ∀ s, Inv s → body (j : Int) s = some (step j s) ∧ Inv (step j s))
    (s : σ) (hs : Inv s) :
    loopFrom body k 0 s = some (iter step k s) ∧ Inv (iter step k s) := by
  induction k with
  | zero => exact ⟨rfl, hs⟩
  | succ k ih =>
    have h1 := ih (fun j hj => hb j (Nat.lt_succ_of_lt hj))
    have h2 := hb k (Nat.lt_succ_self k) _ h1.2
    rw [loopFrom_succ_last, h1.1]
    simpa [iter] using h2

theorem iter_append {α : Type} (g : Nat → List α) (k : Nat) (s : List α) :
    iter (fun j t => t ++ g j) k s = s ++ rows g k := by
  induction k with
  | zero => simp [iter, rows]
  | succ k ih => simp [iter, rows, ih]

theorem iter_append_pair {α β : Type} (g1 : Nat → List α) (g2 : Nat → List β) (k : Nat)
    (s : List α × List β) :
    iter (fun j t => (t.1 ++ g1 j, t.2 ++ g2 j)) k s = (s.1 ++ rows g1 k, s.2 ++ rows g2 k) := by
  induction k with
  | zero => simp [iter, rows]
  | succ k ih => simp [iter, rows, ih]

theorem rows_length {α : Type} (g : Nat → List α) (m : Nat) (n : Nat)
    (hg : ∀ i, i < n → (g i).length = m) : (rows g n).length = n * m := by
  induction n with
  | zero => simp [rows]
  | succ n ih =>
    simp only [rows, List.length_append]
    rw [ih (fun i hi => hg i (Nat.lt_succ_of_lt hi)), hg n (Nat.lt_succ_self n)]
    ring

theorem rows_getElem? {α : Type} (g : Nat → List α) (m : Nat) (n : Nat)
    (hg : ∀ i, i < n → (g i).length = m) (i j : Nat) (hi : i < n) (hj : j < m) :
    (rows g n)[i * m + j]? = (g i)[j]? := by
  induction n with
  | zero => omega
  | succ n ih =>
    have hlen := rows_length g m n (fun i hi => hg i (Nat.lt_succ_of_lt hi))
    simp only [rows]
    rcases Nat.lt_succ_iff_lt_or_eq.mp hi with h | h
    · have hlt : i * m + j < (rows g n).length := by
        rw [hlen]
        calc i * m + j < i * m + m := by omega
          _ = (i + 1) * m := by ring
          _ ≤ n * m := Nat.mul_le_mul_right m h
      rw [List.getElem?_append_left hlt]
      exact ih (fun i hi => hg i (Nat.lt_succ_of_lt hi)) h
    · subst h
      rw [List.getElem?_append_right (by rw [hlen]; omega), hlen]
      congr 1
      omega

theorem rows_mem {α : Type} (g : Nat → List α) (n : Nat) (a : α) :
    a ∈ rows g n ↔ ∃ i, i < n ∧ a ∈ g i := by
  induction n with
  | zero => simp [rows]
  | succ n ih =>
    simp only [rows, List.mem_append, ih]
    constructor
    · rintro (⟨i, hi, h⟩ | h)
      · exact ⟨i, Nat.lt_succ_of_lt hi, h⟩
      · exact ⟨n, Nat.lt_succ_self n, h⟩
    · rintro ⟨i, hi, h⟩
      rcases Nat.lt_succ_iff_lt_or_eq.mp hi with h' | h'
      · exact Or.inl ⟨i, h', h⟩
      · subst h'; exact Or.inr h

/-! ## The mesh `BuildTerrain` produces -/

theorem readsInRange_of_length (Heights : List Nat) (W H : Int)
    (hlen : (Heights.length : Int) = W * H) : ReadsInRange Heights W H := by
  intro y x hy hx
  have hW : 0 < W := by omega
  have hH : 0 < H := by omega
  obtain ⟨n, rfl⟩ := Int.eq_ofNat_of_zero_le hW.le
  obtain ⟨m, rfl⟩ := Int.eq_ofNat_of_zero_le hH.le
  have hl : Heights.length = n * m := by exact_mod_cast hlen
  simp only [Int.toNat_ofNat] at hx hy ⊢
  rw [hl]
  calc y * n + x < y * n + n := by omega
    _ = n * (y + 1) := by ring
    _ ≤ n * m := Nat.mul_le_mul_left n hy

theorem triangleLoops_eq (W H : Int) :
    forLoop (H - 1) (fun y t => forLoop (W - 1) (triangleBody W y) t) [] =
      some (rows (fun y => rows (cellTris W y) (W - 1).toNat) (H - 1).toNat) := by
  have inner : ∀ (y : Nat) (t : List Int),
      forLoop (W - 1) (triangleBody W (y : Int)) t = some (t ++ rows (cellTris W y) (W - 1).toNat) := by
    intro y t
    have h := forLoop_eq_iter (triangleBody W (y : Int)) (fun x t => t ++ cellTris W y x)
      (fun _ => True) (W - 1).toNat
      (fun x _ t _ => ⟨by simp [triangleBody, cellTris], trivial⟩) t trivial
    rw [forLoop, h.1, iter_append]
  have outer := forLoop_eq_iter (fun (y : Int) (t : List Int) => forLoop (W - 1) (triangleBody W y) t)
    (fun y t => t ++ rows (cellTris W y) (W - 1).toNat) (fun _ => True) (H - 1).toNat
    (fun y _ t _ => ⟨inner y t, trivial⟩) [] trivial
  rw [forLoop, outer.1, iter_append]
  simp

theorem vertexLoops_eq (hs vs : ℚ) (Heights : List Nat) (W H : Int)
    (hr : ReadsInRange Heights W H) :
    forLoop H (fun y s => forLoop W (vertexBody hs vs Heights W H y) s) ([], []) =
      some (rows (fun y => rows (fun x => [vertexAt hs vs Heights W y x]) W.toNat) H.toNat,
            rows (fun y => rows (fun x => [uvAt W H y x]) W.toNat) H.toNat) := by
  have inner : ∀ (y : Nat), y < H.toNat → ∀ s : List FVector × List FVector2D,
      forLoop W (vertexBody hs vs Heights W H (y : Int)) s =
        some (s.1 ++ rows (fun x => [vertexAt hs vs Heights W y x]) W.toNat,
              s.2 ++ rows (fun x => [uvAt W H y x]) W.toNat) := by
    intro y hy s
    have h := forLoop_eq_iter (vertexBody hs vs Heights W H (y : Int))
      (fun x t => (t.1 ++ [vertexAt hs vs Heights W y x], t.2 ++ [uvAt W H y x]))
      (fun _ => True) W.toNat
      (fun x hx t _ => ⟨by
        have hlt := hr y x hy hx
        have hW : 0 ≤ W := by omega
        obtain ⟨n, rfl⟩ := Int.eq_ofNat_of_zero_le hW
        simp only [Int.toNat_ofNat] at hlt
        have hidx : ((y : Int) * (n : Int) + (x : Int)) = ((y * n + x : Nat) : Int) := by
          push_cast; ring
        have hnn : (0 : Int) ≤ ((y * n + x : Nat) : Int) := Int.ofNat_nonneg _
        simp only [vertexBody, arrayRead, hidx, hnn, if_true, Int.toNat_ofNat,
          List.getElem?_eq_getElem hlt, vertexAt, uvAt, List.getD_eq_getElem?_getD,
          Option.getD_some, Int.cast_natCast], trivial⟩) s trivial
    rw [forLoop, h.1, iter_append_pair]
  have outer := forLoop_eq_iter
    (fun (y : Int) (s : List FVector × List FVector2D) =>
      forLoop W (vertexBody hs vs Heights W H y) s)
    (fun y t => (t.1 ++ rows (fun x => [vertexAt hs vs Heights W y x]) W.toNat,
                 t.2 ++ rows (fun x => [uvAt W H y x]) W.toNat))
    (fun _ => True) H.toNat
    (fun y hy t _ => ⟨inner y hy t, trivial⟩) ([], []) trivial
  rw [forLoop, outer.1, iter_append_pair]
  simp

theorem BuildTerrain_eq (hs vs : ℚ) (Heights : List Nat) (W H : Int)
    (hr : ReadsInRange Heights W H) :
    BuildTerrain hs vs Heights W H = some (meshOf hs vs Heights W H) := by
  simp only [BuildTerrain, vertexLoops_eq hs vs Heights W H hr, triangleLoops_eq, meshOf]

theorem meshOf_Verts_length (hs vs : ℚ) (Heights : List Nat) (W H : Int) :
    (meshOf hs vs Heights W H).Verts.length = H.toNat * W.toNat := by
  simp only [meshOf]
  apply rows_length
  intro y _
  simpa using rows_length (fun x => [vertexAt hs vs Heights W y x]) 1 W.toNat (fun _ _ => rfl)

theorem meshOf_UVs_length (hs vs : ℚ) (Heights : List Nat) (W H : Int) :
    (meshOf hs vs Heights W H).UVs.length = H.toNat * W.toNat := by
  simp only [meshOf]
  apply rows_length
  intro y _
  simpa using rows_length (fun x => [uvAt W H y x]) 1 W.toNat (fun _ _ => rfl)

theorem meshOf_Tris_length (hs vs : ℚ) (Heights : List Nat) (W H : Int) :
    (meshOf hs vs Heights W H).Tris.length = (H - 1).toNat * ((W - 1).toNat * 6) := by
  simp only [meshOf]
  apply rows_length
  intro y _
  exact rows_length _ 6 _ (fun _ _ => rfl)

theorem meshOf_Tris_getElem? (hs vs : ℚ) (Heights : List Nat) (W H : Int) (x y k : Nat)
    (hx : (x : Int) < W - 1) (hy : (y : Int) < H - 1) (hk : k < 6) :
    (meshOf hs vs Heights W H).Tris[6 * (y * (W - 1).toNat + x) + k]? = (cellTris W y x)[k]? := by
  have hx1 : x < (W - 1).toNat := by omega
  have hy1 : y < (H - 1).toNat := by omega
  have hpos : 6 * (y * (W - 1).toNat + x) + k = y * ((W - 1).toNat * 6) + (x * 6 + k) := by ring
  have hj : x * 6 + k < (W - 1).toNat * 6 := by omega
  simp only [meshOf]
  rw [hpos, rows_getElem? (fun y => rows (cellTris W y) (W - 1).toNat) ((W - 1).toNat * 6)
    (H - 1).toNat (fun y _ => rows_length _ 6 _ (fun _ _ => rfl)) y (x * 6 + k) hy1 hj]
  exact rows_getElem? (cellTris W y) 6 (W - 1).toNat (fun _ _ => rfl) x k hx1 hk

theorem meshOf_Verts_getElem? (hs vs : ℚ) (Heights : List Nat) (W H : Int) (x y : Nat)
    (hx : (x : Int) < W) (hy : (y : Int) < H) :
    (meshOf hs vs Heights W H).Verts[y * W.toNat + x]? = some (vertexAt hs vs Heights W y x) := by
  have hx1 : x < W.toNat := by omega
  have hy1 : y < H.toNat := by omega
  have h1 := rows_getElem? (fun y => rows (fun x => [vertexAt hs vs Heights W y x]) W.toNat)
    (W.toNat * 1) H.toNat (fun y _ => rows_length _ 1 _ (fun _ _ => rfl)) y (x * 1 + 0) hy1
    (by omega)
  have h2 := rows_getElem? (fun x => [vertexAt hs vs Heights W y x]) 1 W.toNat
    (fun _ _ => rfl) x 0 hx1 (by omega)
  simp only [Nat.mul_one, Nat.add_zero] at h1 h2
  simp only [meshOf, h1, h2]
  rfl

/-! ## Mesh builder: the claims -/

/-- C4: for a grid with `W * H` samples, `W, H ≥ 0`, and any scale,
`BuildTerrain` returns a mesh with exactly `W * H` vertices, and its normals
and its texture coordinates are as many as its vertices. -/
theorem BuildTerrain_vertex_count (hs vs : ℚ) (Heights : List Nat) (W H : Int)
    (hW : 0 ≤ W) (hH : 0 ≤ H) (hlen : (Heights.length : Int) = W * H) :
    ∃ m, BuildTerrain hs vs Heights W H = some m ∧
      (m.Verts.length : Int) = W * H ∧
      m.Normals.length = m.Verts.length ∧ m.UVs.length = m.Verts.length := by
  refine ⟨_, BuildTerrain_eq hs vs Heights W H (readsInRange_of_length Heights W H hlen), ?_, ?_, ?_⟩
  · rw [meshOf_Verts_length]
    push_cast
    rw [Int.toNat_of_nonneg hW, Int.toNat_of_nonneg hH]
    ring
  · simp [meshOf]
  · rw [meshOf_UVs_length, meshOf_Verts_length]

theorem BuildTerrain_vertex_count_witness :
    ∃ m, BuildTerrain 100 1 [5, 6, 7, 8, 9, 10] 3 2 = some m ∧
      (m.Verts.length : Int) = 3 * 2 ∧
      m.Normals.length = m.Verts.length ∧ m.UVs.length = m.Verts.length :=
  BuildTerrain_vertex_count 100 1 [5, 6, 7, 8, 9, 10] 3 2 (by decide) (by decide) (by decide)

/-- C3: for a grid with `W * H` samples and any scale, the triangle index list
of `BuildTerrain` has length `6 * (W - 1) * (H - 1)` when `W ≥ 2` and `H ≥ 2`,
and is empty when `W < 2` or `H < 2`. -/
theorem BuildTerrain_triangle_count (hs vs : ℚ) (Heights : List Nat) (W H : Int)
    (hlen : (Heights.length : Int) = W * H) :
    ∃ m, BuildTerrain hs vs Heights W H = some m ∧
      (2 ≤ W → 2 ≤ H → (m.Tris.length : Int) = 6 * (W - 1) * (H - 1)) ∧
      (W < 2 ∨ H < 2 → m.Tris.length = 0) := by
  refine ⟨_, BuildTerrain_eq hs vs Heights W H (readsInRange_of_length Heights W H hlen), ?_, ?_⟩
  · intro hW hH
    rw [meshOf_Tris_length]
    push_cast
    rw [Int.toNat_of_nonneg (by omega), Int.toNat_of_nonneg (by omega)]
    ring
  · intro h
    rw [meshOf_Tris_length]
    rcases h with h | h
    · have : (W - 1).toNat = 0 := by omega
      simp [this]
    · have : (H - 1).toNat = 0 := by omega
      simp [this]

theorem BuildTerrain_triangle_count_witness :
    ∃ m, BuildTerrain 100 1 [5, 6, 7, 8, 9, 10] 3 2 = some m ∧
      (2 ≤ (3 : Int) → 2 ≤ (2 : Int) → (m.Tris.length : Int) = 6 * (3 - 1) * (2 - 1)) ∧
      ((3 : Int) < 2 ∨ (2 : Int) < 2 → m.Tris.length = 0) :=
  BuildTerrain_triangle_count 100 1 [5, 6, 7, 8, 9, 10] 3 2 (by decide)

/-- C2: for a grid with `W ≥ 2`, `H ≥ 2` and `W * H` samples, and every cell
`(x, y)` with `x < W - 1`, `y < H - 1`, the six entries of the triangle index
list starting at position `6 * (y * (W - 1) + x)` are `i0, i2, i1, i1, i2, i3`
with `i0 = y * W + x`, `i1 = i0 + 1`, `i2 = i0 + W`, `i3 = i2 + 1`; and the
2 x 2 grid of heights `[0, 0, 0, 0]` with scale `(1, 1)` gives exactly
`[0, 2, 1, 1, 2, 3]`. -/
theorem BuildTerrain_winding :
    (∀ (hs vs : ℚ) (Heights : List Nat) (W H : Int), 2 ≤ W → 2 ≤ H →
      (Heights.length : Int) = W * H →
      ∃ m, BuildTerrain hs vs Heights W H = some m ∧
        ∀ x y : Nat, (x : Int) < W - 1 → (y : Int) < H - 1 →
          ∀ i0 i1 i2 i3 : Int, i0 = y * W + x → i1 = i0 + 1 → i2 = i0 + W → i3 = i2 + 1 →
            (m.Tris.drop (6 * (y * (W - 1).toNat + x))).take 6 = [i0, i2, i1, i1, i2, i3]) ∧
    (BuildTerrain 1 1 [0, 0, 0, 0] 2 2).map (fun m => m.Tris) = some [0, 2, 1, 1, 2, 3] := by
  refine ⟨?_, by decide⟩
  intro hs vs Heights W H _ _ hlen
  refine ⟨_, BuildTerrain_eq hs vs Heights W H (readsInRange_of_length Heights W H hlen), ?_⟩
  intro x y hx hy i0 i1 i2 i3 h0 h1 h2 h3
  subst h0 h1 h2 h3
  apply List.ext_getElem?
  intro k
  rw [List.getElem?_take]
  by_cases hk : k < 6
  · rw [if_pos hk, List.getElem?_drop, meshOf_Tris_getElem? hs vs Heights W H x y k hx hy hk]
    rfl
  · rw [if_neg hk]
    symm
    exact List.getElem?_eq_none (by simp only [List.length_cons, List.length_nil]; omega)

theorem BuildTerrain_winding_witness :
    ∃ m, BuildTerrain 100 1 [5, 6, 7, 8, 9, 10] 3 2 = some m ∧
      (m.Tris.drop (6 * (0 * ((3 : Int) - 1).toNat + 1))).take 6 = [1, 4, 2, 2, 4, 5] := by
  obtain ⟨m, hm, h⟩ := BuildTerrain_winding.1 100 1 [5, 6, 7, 8, 9, 10] 3 2
    (by decide) (by decide) (by decide)
  exact ⟨m, hm, h 1 0 (by decide) (by decide) 1 2 4 5 (by decide) (by decide) (by decide)
    (by decide)⟩

/-- C5: with exact scale arithmetic, for a grid with `W * H` samples and every
`(x, y)` with `x < W`, `y < H`, the vertex at index `y * W + x` is
`(x * horizontal, y * horizontal, sample * vertical)` for the sample at that
index; and for the grid of width 2, height 1 and samples `[0, 65535]` with
vertical scale 2, vertex 0 has `z = 0` and vertex 1 has `z = 131070`. -/
theorem BuildTerrain_vertex_position :
    (∀ (hs vs : ℚ) (Heights : List Nat) (W H : Int), (Heights.length : Int) = W * H →
      ∃ m, BuildTerrain hs vs Heights W H = some m ∧
        ∀ x y : Nat, (x : Int) < W → (y : Int) < H →
          ∃ sample, Heights[y * W.toNat + x]? = some sample ∧
            m.Verts[y * W.toNat + x]? =
              some ((x : ℚ) * hs, (y : ℚ) * hs, (sample : ℚ) * vs)) ∧
    (∀ hs : ℚ, ∃ m, BuildTerrain hs 2 [0, 65535] 2 1 = some m ∧
      (m.Verts[0]?).map (fun v => v.2.2) = some 0 ∧
      (m.Verts[1]?).map (fun v => v.2.2) = some 131070) := by
  have general : ∀ (hs vs : ℚ) (Heights : List Nat) (W H : Int),
      (Heights.length : Int) = W * H →
      ∃ m, BuildTerrain hs vs Heights W H = some m ∧
        ∀ x y : Nat, (x : Int) < W → (y : Int) < H →
          ∃ sample, Heights[y * W.toNat + x]? = some sample ∧
            m.Verts[y * W.toNat + x]? =
              some ((x : ℚ) * hs, (y : ℚ) * hs, (sample : ℚ) * vs) := by
    intro hs vs Heights W H hlen
    have hr := readsInRange_of_length Heights W H hlen
    refine ⟨_, BuildTerrain_eq hs vs Heights W H hr, ?_⟩
    intro x y hx hy
    have hlt : y * W.toNat + x < Heights.length := hr y x (by omega) (by omega)
    refine ⟨Heights[y * W.toNat + x], List.getElem?_eq_getElem hlt, ?_⟩
    rw [meshOf_Verts_getElem? hs vs Heights W H x y hx hy]
    simp [vertexAt, List.getD_eq_getElem?_getD, List.getElem?_eq_getElem hlt]
  refine ⟨general, ?_⟩
  intro hs
  obtain ⟨m, hm, h⟩ := general hs 2 [0, 65535] 2 1 (by decide)
  refine ⟨m, hm, ?_, ?_⟩
  · obtain ⟨s, hs1, hs2⟩ := h 0 0 (by decide) (by decide)
    simp at hs1 hs2
    subst hs1
    simp [hs2]
  · obtain ⟨s, hs1, hs2⟩ := h 1 0 (by decide) (by decide)
    simp at hs1 hs2
    subst hs1
    rw [hs2]
    norm_num

theorem BuildTerrain_vertex_position_witness :
    ∃ m, BuildTerrain 100 1 [5, 6, 7, 8, 9, 10] 3 2 = some m ∧
      m.Verts[1 * (3 : Int).toNat + 2]? = some (2 * 100, 1 * 100, 10 * 1) := by
  obtain ⟨m, hm, h⟩ := BuildTerrain_vertex_position.1 100 1 [5, 6, 7, 8, 9, 10] 3 2 (by decide)
  obtain ⟨s, hs1, hs2⟩ := h 2 1 (by decide) (by decide)
  have hs : s = 10 := by
    have : [5, 6, 7, 8, 9, 10][1 * (3 : Int).toNat + 2]? = some 10 := by decide
    rw [this] at hs1
    exact (Option.some.inj hs1).symm
  subst hs
  exact ⟨m, hm, by simpa using hs2⟩

/-- C10: for `W ≥ 0`, `H ≥ 0`, a grid with `W * H` samples and any scale, every
entry of the triangle index list of `BuildTerrain` is at least 0 and less than
`W * H`, which is the number of vertices, and the length of the list is a
multiple of 3. -/
theorem BuildTerrain_indices_in_range (hs vs : ℚ) (Heights : List Nat) (W H : Int)
    (hW : 0 ≤ W) (hH : 0 ≤ H) (hlen : (Heights.length : Int) = W * H) :
    ∃ m, BuildTerrain hs vs Heights W H = some m ∧
      (∀ k ∈ m.Tris, 0 ≤ k ∧ k < W * H) ∧
      (m.Verts.length : Int) = W * H ∧
      3 ∣ m.Tris.length := by
  refine ⟨_, BuildTerrain_eq hs vs Heights W H (readsInRange_of_length Heights W H hlen), ?_, ?_, ?_⟩
  · intro k hk
    simp only [meshOf, rows_mem] at hk
    obtain ⟨y, hy, x, hx, hmem⟩ := hk
    have hy1 : (y : Int) + 2 ≤ H := by omega
    have hx1 : (x : Int) + 2 ≤ W := by omega
    have hy0 : (0 : Int) ≤ y := Int.ofNat_nonneg y
    have hx0 : (0 : Int) ≤ x := Int.ofNat_nonneg x
    have hyW : (0 : Int) ≤ y * W := mul_nonneg hy0 hW
    have hmul : ((y : Int) + 2) * W ≤ H * W := mul_le_mul_of_nonneg_right hy1 hW
    have hexp : ((y : Int) + 2) * W = y * W + 2 * W := by ring
    have hcomm : H * W = W * H := mul_comm H W
    simp only [cellTris, List.mem_cons, List.mem_singleton, List.not_mem_nil, or_false] at hmem
    rcases hmem with h | h | h | h | h | h <;> subst h <;> constructor <;> linarith
  · rw [meshOf_Verts_length]
    push_cast
    rw [Int.toNat_of_nonneg hW, Int.toNat_of_nonneg hH]
    ring
  · rw [meshOf_Tris_length]
    exact ⟨(H - 1).toNat * ((W - 1).toNat * 2), by ring⟩

theorem BuildTerrain_indices_in_range_witness :
    ∃ m, BuildTerrain 100 1 [5, 6, 7, 8, 9, 10] 3 2 = some m ∧
      (∀ k ∈ m.Tris, 0 ≤ k ∧ k < (3 : Int) * 2) ∧
      (m.Verts.length : Int) = 3 * 2 ∧
      3 ∣ m.Tris.length :=
  BuildTerrain_indices_in_range 100 1 [5, 6, 7, 8, 9, 10] 3 2 (by decide) (by decide) (by decide)

/-! ## Heightmap codec: the packing and unpacking loops -/

theorem and_255 (x : Nat) : x &&& 0xFF = x % 256 :=
  Nat.and_pow_two_sub_one_eq_mod x 8

theorem shl8_or (a b : Nat) (hb : b < 256) : (a <<< 8) ||| b = 256 * a + b := by
  rw [Nat.shiftLeft_eq, Nat.mul_comm a (2 ^ 8)]
  exact (Nat.mul_add_lt_is_or (by simpa using hb) a).symm

theorem joinBytes_loByte_hiByte (h : Nat) (hh : h < 65536) :
    joinBytes (loByte h) (hiByte h) = h := by
  unfold joinBytes loByte hiByte
  rw [and_255, and_255, Nat.shiftRight_eq_div_pow, shl8_or _ _ (Nat.mod_lt _ (by decide))]
  norm_num
  omega

theorem iter_set_length {α : Type} (f : Nat → α) (k : Nat) (O : List α) :
    (iter (fun j O => O.set j (f j)) k O).length = O.length := by
  induction k with
  | zero => rfl
  | succ k ih => simp [iter, ih]

theorem iter_set_getElem? {α : Type} (f : Nat → α) (k : Nat) (O : List α) (j : Nat)
    (hj : j < k) (hl : j < O.length) :
    (iter (fun j O => O.set j (f j)) k O)[j]? = some (f j) := by
  induction k with
  | zero => omega
  | succ k ih =>
    simp only [iter, List.getElem?_set, iter_set_length]
    by_cases h : k = j
    · subst h; simp [hl]
    · rw [if_neg h]; exact ih (by omega)

theorem iter_set2_length {α : Type} (f g : Nat → α) (k : Nat) (R : List α) :
    (iter (fun j R => (R.set (2 * j) (f j)).set (2 * j + 1) (g j)) k R).length = R.length := by
  induction k with
  | zero => rfl
  | succ k ih => simp [iter, ih]

theorem iter_set2_getElem? {α : Type} (f g : Nat → α) (k : Nat) (R : List α) (j : Nat)
    (hj : j < k) (hl : 2 * j + 1 < R.length) :
    (iter (fun j R => (R.set (2 * j) (f j)).set (2 * j + 1) (g j)) k R)[2 * j]? = some (f j) ∧
    (iter (fun j R => (R.set (2 * j) (f j)).set (2 * j + 1) (g j)) k R)[2 * j + 1]? =
      some (g j) := by
  induction k with
  | zero => omega
  | succ k ih =>
    simp only [iter, List.getElem?_set, iter_set2_length, List.length_set]
    by_cases h : k = j
    · subst h
      have h1 : ¬ (2 * k + 1 = 2 * k) := by omega
      have h2 : 2 * k < R.length := by omega
      simp [h1, h2, hl]
    · have h1 : ¬ (2 * k + 1 = 2 * j) := by omega
      have h2 : ¬ (2 * k = 2 * j) := by omega
      have h3 : ¬ (2 * k + 1 = 2 * j + 1) := by omega
      have h4 : ¬ (2 * k = 2 * j + 1) := by omega
      rw [if_neg h1, if_neg h2, if_neg h3, if_neg h4]
      exact ih (by omega)

theorem arrayRead_natCast {α : Type} (A : List α) (j : Nat) : arrayRead A (j : Int) = A[j]? := by
  simp [arrayRead]

theorem arrayWrite_natCast {α : Type} (A : List α) (j : Nat) (v : α) (hj : j < A.length) :
    arrayWrite A (j : Int) v = some (A.set j v) := by
  simp [arrayWrite, hj]

/-- The packing loop over `n` samples fills a buffer of `2 * n` bytes with the
low and high byte of each sample. -/
theorem packLoop_eq (Heights : List Nat) (R0 : List Nat) (hR : R0.length = 2 * Heights.length) :
    ∃ R, forLoop (Heights.length : Int) (packBody Heights) R0 = some R ∧
      R.length = 2 * Heights.length ∧
      ∀ j, j < Heights.length →
        R[2 * j]? = some (loByte (Heights.getD j 0)) ∧
        R[2 * j + 1]? = some (hiByte (Heights.getD j 0)) := by
  have h := forLoop_eq_iter (packBody Heights)
    (fun j R => (R.set (2 * j) (loByte (Heights.getD j 0))).set (2 * j + 1)
      (hiByte (Heights.getD j 0)))
    (fun R => R.length = 2 * Heights.length) Heights.length
    (fun j hj R hlen => ⟨by
      have e0 : (2 : Int) * (j : Int) = ((2 * j : Nat) : Int) := by push_cast; ring
      have e1 : ((2 * j : Nat) : Int) + 1 = ((2 * j + 1 : Nat) : Int) := by push_cast; ring
      simp only [packBody, arrayRead_natCast, List.getElem?_eq_getElem hj, e0, e1]
      rw [arrayWrite_natCast _ _ _ (by omega)]
      simp only []
      rw [arrayWrite_natCast _ _ _ (by simp only [List.length_set]; omega)]
      simp [loByte, hiByte, List.getD_eq_getElem?_getD, List.getElem?_eq_getElem hj],
      by simpa using hlen⟩) R0 hR
  refine ⟨_, by rw [forLoop, Int.toNat_ofNat]; exact h.1, h.2, ?_⟩
  intro j hj
  exact iter_set2_getElem? _ _ _ R0 j hj (by omega)

/-- The unpacking loop over `n` samples: when the raw buffer holds at least
`2 * n` bytes it overwrites all `n` entries of the output with the assembled
samples. -/
theorem unpackLoop_eq (Raw : List Nat) (n : Nat) (O0 : List Nat) (hO : O0.length = n)
    (hRaw : 2 * n ≤ Raw.length) :
    ∃ O, forLoop (n : Int) (unpackBody Raw) O0 = some O ∧
      O.length = n ∧
      ∀ j, j < n → O[j]? = some (joinBytes (Raw.getD (2 * j) 0) (Raw.getD (2 * j + 1) 0)) := by
  have h := forLoop_eq_iter (unpackBody Raw)
    (fun j O => O.set j (joinBytes (Raw.getD (2 * j) 0) (Raw.getD (2 * j + 1) 0)))
    (fun O => O.length = n) n
    (fun j hj O hlen => ⟨by
      have e0 : (2 : Int) * (j : Int) = ((2 * j : Nat) : Int) := by push_cast; ring
      have e1 : ((2 * j : Nat) : Int) + 1 = ((2 * j + 1 : Nat) : Int) := by push_cast; ring
      have l0 : 2 * j < Raw.length := by omega
      have l1 : 2 * j + 1 < Raw.length := by omega
      simp only [unpackBody, arrayRead_natCast, e0, e1, List.getElem?_eq_getElem l0,
        List.getElem?_eq_getElem l1]
      rw [arrayWrite_natCast _ _ _ (by omega)]
      simp [joinBytes, List.getD_eq_getElem?_getD, List.getElem?_eq_getElem l0,
        List.getElem?_eq_getElem l1],
      by simpa using hlen⟩) O0 hO
  refine ⟨_, by rw [forLoop, Int.toNat_ofNat]; exact h.1, h.2, ?_⟩
  intro j hj
  exact iter_set_getElem? _ _ O0 j hj (by omega)

theorem setNum_natCast (A : List Nat) (n : Nat) :
    ∃ B, setNum A (n : Int) = some B ∧ B.length = n := by
  refine ⟨A.take n ++ List.replicate (n - A.length) 0, by simp [setNum], ?_⟩
  simp only [List.length_append, List.length_take, List.length_replicate]
  omega

theorem LoadFileToArray_writeFile (fs : FileSystem) (p : Path) (d : FileData) :
    LoadFileToArray (writeFile fs p d) p = some d := by
  simp [LoadFileToArray, writeFile, List.lookup]

/-- What `SaveRawToPNG16` does on a grid with `W * H` samples when the host
operations succeed: it writes the image whose raw buffer holds the low and
high byte of every sample. -/
theorem SaveRawToPNG16_ok (pf : Platform) (fs : FileSystem) (FullPath : Path)
    (Heights : List Nat) (W H : Int) (hlen : (Heights.length : Int) = W * H)
    (hwrap : pf.wrapperValid = true) (hset : pf.setRawOk = true)
    (hsave : pf.saveArrayOk = true) :
    ∃ R, SaveRawToPNG16 pf fs FullPath Heights W H =
        some (true, writeFile fs FullPath (FileData.png { Width := W, Height := H, Raw := some R })) ∧
      R.length = 2 * Heights.length ∧
      ∀ j, j < Heights.length →
        R[2 * j]? = some (loByte (Heights.getD j 0)) ∧
        R[2 * j + 1]? = some (hiByte (Heights.getD j 0)) := by
  have e2 : W * H * 2 = ((2 * Heights.length : Nat) : Int) := by rw [← hlen]; push_cast; ring
  obtain ⟨R0, hR0, hR0len⟩ := setNum_natCast [] (2 * Heights.length)
  obtain ⟨R, hR, hRlen, hRget⟩ := packLoop_eq Heights R0 hR0len
  refine ⟨R, ?_, hRlen, hRget⟩
  unfold SaveRawToPNG16
  rw [if_neg (by simpa using hlen), e2, hR0]
  simp only [hwrap, hset, hsave]
  rw [← hlen, hR]
  simp

/-- C1: for every grid with `1 ≤ W, H ≤ 4096`, `W * H` samples and every sample
a `uint16`, when the host operations of the save succeed, `SaveRawToPNG16`
returns true and `LoadPNG16ToRaw` of the file it wrote returns true with the
same width, the same height and the same samples. The bounds on `W` and `H`
keep `W * H * 2` inside the `int32` range. -/
theorem codec_round_trip (pf : Platform) (fs : FileSystem) (FullPath : Path)
    (Heights : List Nat) (W H : Int) (Out0 : List Nat) (W0 H0 : Int)
    (_hW : 1 ≤ W ∧ W ≤ 4096) (_hH : 1 ≤ H ∧ H ≤ 4096)
    (hlen : (Heights.length : Int) = W * H) (hu16 : ∀ v ∈ Heights, v < 65536)
    (hwrap : pf.wrapperValid = true) (hset : pf.setRawOk = true)
    (hsave : pf.saveArrayOk = true) :
    ∃ fs1, SaveRawToPNG16 pf fs FullPath Heights W H = some (true, fs1) ∧
      LoadPNG16ToRaw fs1 FullPath Out0 W0 H0 = some (true, Heights, W, H) := by
  obtain ⟨R, hsaveEq, hRlen, hRget⟩ :=
    SaveRawToPNG16_ok pf fs FullPath Heights W H hlen hwrap hset hsave
  refine ⟨_, hsaveEq, ?_⟩
  obtain ⟨O0, hO0, hO0len⟩ := setNum_natCast Out0 Heights.length
  obtain ⟨O, hO, hOlen, hOget⟩ := unpackLoop_eq R Heights.length O0 hO0len (by omega)
  have hOeq : O = Heights := by
    apply List.ext_getElem?
    intro j
    by_cases hj : j < Heights.length
    · have h1 := hRget j hj
      have l0 : 2 * j < R.length := by omega
      have l1 : 2 * j + 1 < R.length := by omega
      rw [hOget j hj, List.getD_eq_getElem?_getD, List.getD_eq_getElem?_getD, h1.1, h1.2]
      simp only [Option.getD_some]
      rw [joinBytes_loByte_hiByte _ (by
        rw [List.getD_eq_getElem?_getD, List.getElem?_eq_getElem hj]
        exact hu16 _ (List.getElem_mem hj))]
      simp [List.getD_eq_getElem?_getD, List.getElem?_eq_getElem hj]
    · rw [List.getElem?_eq_none (by omega), List.getElem?_eq_none (by omega)]
  unfold LoadPNG16ToRaw
  rw [LoadFileToArray_writeFile]
  simp only []
  rw [← hlen, hO0]
  simp only []
  rw [hO, hOeq]

theorem codec_round_trip_witness :
    ∃ fs1, SaveRawToPNG16 ⟨true, true, true, true, true, true⟩ ⟨[], []⟩ ["h.png"]
        [258, 65535, 7, 0, 1, 4096] 3 2 = some (true, fs1) ∧
      LoadPNG16ToRaw fs1 ["h.png"] [] 0 0 = some (true, [258, 65535, 7, 0, 1, 4096], 3, 2) :=
  codec_round_trip ⟨true, true, true, true, true, true⟩ ⟨[], []⟩ ["h.png"]
    [258, 65535, 7, 0, 1, 4096] 3 2 [] 0 0 (by decide) (by decide) (by decide) (by decide)
    rfl rfl rfl

/-- C7: for a non-empty level name and a current grid with zero samples, or
`ImgWidth ≤ 0`, or `ImgHeight ≤ 0`, `SaveRuntimeLevel` returns false and the
file system is unchanged, whatever the host operations would do. -/
theorem SaveRuntimeLevel_empty_rejected (pf : Platform) (fs : FileSystem) (a : ALevelManager)
    (LevelName : String) (hname : LevelName ≠ "")
    (hempty : a.RawHeights.length = 0 ∨ a.ImgWidth ≤ 0 ∨ a.ImgHeight ≤ 0) :
    SaveRuntimeLevel pf fs a LevelName = some (false, fs) := by
  unfold SaveRuntimeLevel
  rw [if_neg hname, if_pos hempty]

theorem SaveRuntimeLevel_empty_rejected_witness :
    SaveRuntimeLevel ⟨true, true, true, true, true, true⟩
      ⟨[["Saved"], ["Saved", "MyRTLevels"]], []⟩ ⟨100, 1, [], 0, 0, none⟩ "x" =
      some (false, ⟨[["Saved"], ["Saved", "MyRTLevels"]], []⟩) :=
  SaveRuntimeLevel_empty_rejected ⟨true, true, true, true, true, true⟩
    ⟨[["Saved"], ["Saved", "MyRTLevels"]], []⟩ ⟨100, 1, [], 0, 0, none⟩ "x" (by decide)
    (Or.inl rfl)

theorem loopFrom_invariant {σ : Type} (body : Int → σ → Option σ) (P : σ → Prop)
    (hb : ∀ i s t, P s → body i s = some t → P t) (k : Nat) (i : Int) (s t : σ) (hs : P s)
    (h : loopFrom body k i s = some t) : P t := by
  induction k generalizing i s with
  | zero =>
    simp only [loopFrom, Option.some.injEq] at h
    exact h ▸ hs
  | succ k ih =>
    rw [loopFrom] at h
    cases hbs : body i s with
    | none => rw [hbs] at h; simp at h
    | some s1 =>
      rw [hbs, Option.some_bind] at h
      exact ih (i + 1) s1 (hb i s s1 hs hbs) h

theorem unpackBody_length (Raw : List Nat) (i : Int) (O O1 : List Nat)
    (h : unpackBody Raw i O = some O1) : O1.length = O.length := by
  unfold unpackBody at h
  split at h
  · simp at h
  · split at h
    · simp at h
    · simp only [arrayWrite] at h
      split at h
      · simp only [Option.some.injEq] at h
        rw [← h, List.length_set]
      · simp at h

/-- A successful `LoadPNG16ToRaw` yields exactly `W * H` samples. -/
theorem LoadPNG16ToRaw_length (fs : FileSystem) (p : Path) (Out0 : List Nat) (W0 H0 : Int)
    (Loaded : List Nat) (W H : Int)
    (h : LoadPNG16ToRaw fs p Out0 W0 H0 = some (true, Loaded, W, H)) :
    (Loaded.length : Int) = W * H := by
  unfold LoadPNG16ToRaw at h
  split at h
  · simp at h
  · rename_i img _
    simp only [] at h
    split at h
    · simp at h
    · split at h
      · simp at h
      · rename_i B hB
        split at h
        · simp at h
        · rename_i O hO
          simp only [Option.some.injEq, Prod.mk.injEq, true_and] at h
          obtain ⟨h1, h2, h3⟩ := h
          subst h1 h2 h3
          have hlenO : O.length = B.length :=
            loopFrom_invariant (unpackBody _) (fun t => t.length = B.length)
              (fun i s t hs hst => (unpackBody_length _ i s t hst).trans hs) _ _ _ _ rfl hO
          unfold setNum at hB
          split at hB
          · rename_i hnn
            simp only [Option.some.injEq] at hB
            rw [hlenO, ← hB]
            simp only [List.length_append, List.length_take, List.length_replicate]
            omega
          · simp at hB
  · simp at h

theorem ImgPath_ne_MetaPath (LevelName : String) : ImgPath LevelName ≠ MetaPath LevelName := by
  simp [ImgPath, MetaPath]

/-- What `LoadRuntimeLevel` computes depends on the file system only through
the content of the level's image file. -/
theorem LoadRuntimeLevel_congr (fs1 fs2 : FileSystem) (a : ALevelManager) (LevelName : String)
    (h : fs1.files.lookup (ImgPath LevelName) = fs2.files.lookup (ImgPath LevelName)) :
    LoadRuntimeLevel fs1 a LevelName = LoadRuntimeLevel fs2 a LevelName := by
  have h1 : ∀ fs : FileSystem,
      FileExists fs (ProjectSavedDir ++ ["MyRTLevels", LevelName] ++ ["height_16bit.png"]) =
        (fs.files.lookup (ImgPath LevelName)).isSome := fun _ => rfl
  have h2 : ∀ (fs : FileSystem) (O : List Nat) (W H : Int),
      LoadPNG16ToRaw fs (ProjectSavedDir ++ ["MyRTLevels", LevelName] ++ ["height_16bit.png"])
        O W H =
      (match fs.files.lookup (ImgPath LevelName) with
        | none => some (false, O, W, H)
        | some (FileData.png img) =>
          match img.Raw with
          | none => some (false, O, img.Width, img.Height)
          | some Raw =>
            match setNum O (img.Width * img.Height) with
            | none => none
            | some Out0 =>
              match forLoop (img.Width * img.Height) (unpackBody Raw) Out0 with
              | none => none
              | some Out => some (true, Out, img.Width, img.Height)
        | some _ => some (false, O, W, H)) := fun _ _ _ _ => rfl
  unfold LoadRuntimeLevel
  simp only [h1, h2, h]

/-- C9: for a non-empty level name whose image file exists and decodes to a
`W` x `H` grid, `LoadRuntimeLevel` returns true and leaves `ImgWidth = W`,
`ImgHeight = H` and the image's samples in `RawHeights`; and two file systems
that agree on every file other than the level's `metadata.json` give the same
result of `LoadRuntimeLevel`. -/
theorem LoadRuntimeLevel_ignores_metadata :
    (∀ (fs : FileSystem) (a : ALevelManager) (LevelName : String) (Loaded : List Nat) (W H : Int),
      LevelName ≠ "" → FileExists fs (ImgPath LevelName) = true →
      LoadPNG16ToRaw fs (ImgPath LevelName) [] 0 0 = some (true, Loaded, W, H) →
      ∃ a1, LoadRuntimeLevel fs a LevelName = some (true, a1) ∧
        a1.RawHeights = Loaded ∧ a1.ImgWidth = W ∧ a1.ImgHeight = H) ∧
    (∀ (fs1 fs2 : FileSystem) (a : ALevelManager) (LevelName : String),
      (∀ p : Path, p ≠ MetaPath LevelName → fs1.files.lookup p = fs2.files.lookup p) →
      LoadRuntimeLevel fs1 a LevelName = LoadRuntimeLevel fs2 a LevelName) := by
  constructor
  · intro fs a LevelName Loaded W H hname hex hload
    have hlen := LoadPNG16ToRaw_length fs _ [] 0 0 Loaded W H hload
    have hbuild := BuildTerrain_eq a.HorizontalScale a.VerticalScale Loaded W H
      (readsInRange_of_length Loaded W H hlen)
    refine ⟨{ a with RawHeights := Loaded, ImgWidth := W, ImgHeight := H,
                     MeshSection := some (meshOf a.HorizontalScale a.VerticalScale Loaded W H) },
      ?_, rfl, rfl, rfl⟩
    have hex1 : FileExists fs
        (ProjectSavedDir ++ ["MyRTLevels", LevelName] ++ ["height_16bit.png"]) = true := hex
    have hload1 : LoadPNG16ToRaw fs
        (ProjectSavedDir ++ ["MyRTLevels", LevelName] ++ ["height_16bit.png"]) [] 0 0 =
        some (true, Loaded, W, H) := hload
    unfold LoadRuntimeLevel
    rw [if_neg hname]
    simp only [hex1, hload1, hbuild, Bool.not_true, Bool.false_eq_true, if_false]
  · intro fs1 fs2 a LevelName h
    exact LoadRuntimeLevel_congr fs1 fs2 a LevelName (h _ (ImgPath_ne_MetaPath LevelName))

theorem LoadRuntimeLevel_ignores_metadata_witness :
    (∃ a1, LoadRuntimeLevel
        ⟨[["Saved"], ["Saved", "MyRTLevels"], ["Saved", "MyRTLevels", "lvl"]],
         [(MetaPath "lvl", FileData.json ⟨"lvl", 7, 9, 100, 1⟩),
          (ImgPath "lvl", FileData.png ⟨2, 1, some [2, 1, 255, 255]⟩)]⟩
        ⟨100, 1, [], 0, 0, none⟩ "lvl" = some (true, a1) ∧
      a1.RawHeights = [258, 65535] ∧ a1.ImgWidth = 2 ∧ a1.ImgHeight = 1) ∧
    LoadRuntimeLevel
        ⟨[["Saved"], ["Saved", "MyRTLevels"], ["Saved", "MyRTLevels", "lvl"]],
         [(MetaPath "lvl", FileData.json ⟨"lvl", 7, 9, 100, 1⟩),
          (ImgPath "lvl", FileData.png ⟨2, 1, some [2, 1, 255, 255]⟩)]⟩
        ⟨100, 1, [], 0, 0, none⟩ "lvl" =
      LoadRuntimeLevel
        ⟨[["Saved"], ["Saved", "MyRTLevels"], ["Saved", "MyRTLevels", "lvl"]],
         [(ImgPath "lvl", FileData.png ⟨2, 1, some [2, 1, 255, 255]⟩)]⟩
        ⟨100, 1, [], 0, 0, none⟩ "lvl" :=
  ⟨LoadRuntimeLevel_ignores_metadata.1 _ _ "lvl" [258, 65535] 2 1 (by decide) (by decide)
      (by decide),
   LoadRuntimeLevel_ignores_metadata.2 _ _ _ "lvl" (by
      intro p hp
      simp [List.lookup, beq_eq_false_iff_ne.mpr hp])⟩

/-! ## Level store: listing -/

theorem lexLe_total : ∀ a b : List Nat, lexLe a b = true ∨ lexLe b a = true
  | [], _ => Or.inl (by simp [lexLe])
  | _ :: _, [] => Or.inr (by simp [lexLe])
  | a :: as, b :: bs => by
    simp only [lexLe, Bool.or_eq_true, decide_eq_true_eq, Bool.and_eq_true, beq_iff_eq]
    rcases Nat.lt_trichotomy a b with h | h | h
    · exact Or.inl (Or.inl h)
    · subst h
      rcases lexLe_total as bs with h | h
      · exact Or.inl (Or.inr ⟨rfl, h⟩)
      · exact Or.inr (Or.inr ⟨rfl, h⟩)
    · exact Or.inr (Or.inl h)

theorem lexLe_trans : ∀ a b c : List Nat, lexLe a b = true → lexLe b c = true → lexLe a c = true
  | [], _, _ => fun _ _ => by simp [lexLe]
  | _ :: _, [], _ => fun h _ => by simp [lexLe] at h
  | _ :: _, _ :: _, [] => fun _ h => by simp [lexLe] at h
  | a :: as, b :: bs, c :: cs => by
    simp only [lexLe, Bool.or_eq_true, decide_eq_true_eq, Bool.and_eq_true, beq_iff_eq]
    rintro (h1 | ⟨h1, h1'⟩) (h2 | ⟨h2, h2'⟩)
    · exact Or.inl (by omega)
    · exact Or.inl (by omega)
    · exact Or.inl (by omega)
    · exact Or.inr ⟨by omega, lexLe_trans as bs cs h1' h2'⟩

theorem insertionSort_FStringLe_sorted (l : List String) :
    (l.insertionSort FStringLe).Sorted FStringLe :=
  @List.sorted_insertionSort String FStringLe _ ⟨fun _ _ => lexLe_total _ _⟩
    ⟨fun _ _ _ => lexLe_trans _ _ _⟩ l

theorem flatMap_lowerCode (l : List Char)
    (h : ∀ c ∈ l, ¬ (65 ≤ c.toNat ∧ c.toNat ≤ 90) ∧ c.toNat < 65536) :
    l.flatMap lowerCode = l.map Char.toNat := by
  induction l with
  | nil => rfl
  | cons c l ih =>
    have hc := h c (List.mem_cons_self c l)
    rw [List.flatMap_cons, List.map_cons, ih (fun d hd => h d (List.mem_cons_of_mem c hd))]
    simp [lowerCode, hc.1, hc.2]

theorem codeLe_of_FStringLe (A B : String) (hA : caseFree A) (hB : caseFree B)
    (h : FStringLe A B) : codeLe A B := by
  unfold FStringLe at h
  rwa [flatMap_lowerCode _ hA, flatMap_lowerCode _ hB] at h

theorem GetCleanFilename_child (Root : Path) (name : String) :
    GetCleanFilename (Root ++ [name]) = name := by
  simp [GetCleanFilename]

theorem child_eq (Root Folder : Path) (hne : Folder ≠ []) (hd : Folder.dropLast = Root) :
    Folder = Root ++ [GetCleanFilename Folder] := by
  have h := List.dropLast_append_getLast hne
  rw [hd] at h
  have hc : GetCleanFilename Folder = Folder.getLast hne := by
    conv_lhs => rw [← h]
    exact GetCleanFilename_child Root _
  rw [hc, h]

theorem DirectoryExists_iff (fs : FileSystem) (p : Path) :
    DirectoryExists fs p = true ↔ p ∈ fs.dirs := by
  simp [DirectoryExists, List.contains]

theorem mem_childDirectories (fs : FileSystem) (Root Folder : Path) :
    Folder ∈ childDirectories fs Root ↔
      Folder ∈ fs.dirs ∧ Folder ≠ [] ∧ Folder.dropLast = Root := by
  simp [childDirectories]

theorem GetSavedLevelNames_of_root (fs : FileSystem) (h : DirectoryExists fs LevelsRoot = true) :
    GetSavedLevelNames fs = (collectedNames fs).insertionSort FStringLe := by
  simp [GetSavedLevelNames, collectedNames, h]

theorem mem_collectedNames (fs : FileSystem) (name : String) :
    name ∈ collectedNames fs ↔
      DirectoryExists fs (LevelsRoot ++ [name]) = true ∧
      FileExists fs (LevelsRoot ++ [name] ++ ["height_16bit.png"]) = true := by
  simp only [collectedNames, List.mem_map, List.mem_filter, mem_childDirectories,
    DirectoryExists_iff]
  constructor
  · rintro ⟨Folder, ⟨⟨hmem, hne, hd⟩, hfile⟩, hname⟩
    have hF := child_eq LevelsRoot Folder hne hd
    rw [hname] at hF
    rw [← hF]
    exact ⟨hmem, hfile⟩
  · rintro ⟨hmem, hfile⟩
    exact ⟨LevelsRoot ++ [name], ⟨⟨hmem, by simp, by simp⟩, hfile⟩,
      GetCleanFilename_child LevelsRoot name⟩

theorem collectedNames_nodup (fs : FileSystem) (h : fs.dirs.Nodup) : (collectedNames fs).Nodup := by
  unfold collectedNames
  apply List.Nodup.map_on
  · intro A hA B hB hAB
    rw [List.mem_filter, mem_childDirectories] at hA hB
    rw [child_eq LevelsRoot A hA.1.2.1 hA.1.2.2, child_eq LevelsRoot B hB.1.2.1 hB.1.2.2, hAB]
  · exact (List.Nodup.filter _ (List.Nodup.filter _ h))

theorem lookup_isSome_keys (l : List (Path × FileData)) (p : Path) :
    (l.lookup p).isSome =
      (((l.map Prod.fst).map (fun k => (k, FileData.other []))).lookup p).isSome := by
  induction l with
  | nil => rfl
  | cons e l ih =>
    obtain ⟨q, d⟩ := e
    simp only [List.map_cons, List.lookup]
    cases hpq : p == q <;> simp [ih]

theorem GetSavedLevelNames_eq_listNames (fs : FileSystem) :
    GetSavedLevelNames fs = listNames fs.dirs (fs.files.map Prod.fst) := by
  simp only [listNames, GetSavedLevelNames, childDirectories, DirectoryExists, FileExists,
    lookup_isSome_keys fs.files]

theorem writeFile_keys (fs : FileSystem) (p : Path) (d : FileData) :
    (writeFile fs p d).files.map Prod.fst =
      p :: (fs.files.map Prod.fst).filter (fun q => !(q == p)) := by
  simp only [writeFile, List.map_cons, List.filter_map]
  rfl

theorem SaveRawToPNG16_true (pf : Platform) (fs fs1 : FileSystem) (p : Path)
    (Heights : List Nat) (W H : Int)
    (h : SaveRawToPNG16 pf fs p Heights W H = some (true, fs1)) :
    ∃ d, fs1 = writeFile fs p d := by
  unfold SaveRawToPNG16 at h
  split at h
  · simp at h
  · split at h
    · simp at h
    · split at h
      · simp at h
      · split at h
        · simp at h
        · split at h
          · simp at h
          · simp only [] at h
            split at h
            · simp at h
            · simp only [Option.some.injEq, Prod.mk.injEq, true_and] at h
              exact ⟨_, h.symm⟩

theorem SaveRuntimeLevel_true (pf : Platform) (fs fs1 : FileSystem) (a : ALevelManager)
    (LevelName : String) (h : SaveRuntimeLevel pf fs a LevelName = some (true, fs1)) :
    fs1.dirs = saveDirs fs.dirs LevelName ∧
      fs1.files.map Prod.fst = saveKeys (fs.files.map Prod.fst) LevelName := by
  unfold SaveRuntimeLevel at h
  split at h
  · simp at h
  · split at h
    · simp at h
    · simp only [] at h
      split at h
      · simp at h
      · rename_i fsd hdir
        split at h
        · simp at h
        · simp at h
        · rename_i fs2 hsave
          obtain ⟨d, hd⟩ := SaveRawToPNG16_true _ _ _ _ _ _ _ hsave
          split at h
          · simp at h
          · split at h
            · simp at h
            · simp only [Option.some.injEq, Prod.mk.injEq, true_and] at h
              subst h hd
              have hdirs : fsd.dirs = saveDirs fs.dirs LevelName ∧ fsd.files = fs.files := by
                unfold saveDirs
                by_cases hex : DirectoryExists fs (LevelsRoot ++ [LevelName]) = true
                · rw [if_pos hex] at hdir
                  have hc : fs.dirs.contains (LevelsRoot ++ [LevelName]) = true := hex
                  simp only [Option.some.injEq] at hdir
                  subst hdir
                  exact ⟨(if_pos hc).symm, rfl⟩
                · rw [if_neg hex] at hdir
                  have hc : ¬ (fs.dirs.contains (LevelsRoot ++ [LevelName]) = true) := hex
                  unfold CreateDirectoryTree at hdir
                  split at hdir
                  · simp only [Option.some.injEq] at hdir
                    subst hdir
                    exact ⟨(if_neg hc).symm, rfl⟩
                  · simp at hdir
              refine ⟨?_, ?_⟩
              · simpa [writeFile] using hdirs.1
              · rw [writeFile_keys, writeFile_keys, hdirs.2]
                rfl

end RuntimeTerrain
